import Mathlib

/-!
Shallow embedding of the SGF value/property codec in `src/sgf.py`.

Strings are modelled as `List Char` (Python `str` is a sequence of Unicode
scalar values) and encoded byte strings as `List Nat` (each byte in 0..255).
Python `ValueError` and encoding failures are modelled by `Except PyErr`.
The only encoding exercised by the code's defaults is ISO-8859-1 (latin-1),
where a character of code point <= 255 maps to the byte of the same value.
-/

namespace Sgf

/-- Python error outcomes.  The source raises `ValueError` everywhere; the
constructors record which message family was raised. -/
inductive PyErr where
  | valueError
  | unescaped (c : Char)
  | dangling
  | unencodable
deriving DecidableEq, Repr

/-- Code points matched by Python's Unicode-aware `re.match('\s', c, re.UNICODE)`
and by `str.isspace` / `str.lstrip` / `int()` stripping: ASCII whitespace,
the information separators, NEL, NBSP and the Unicode space/line separators. -/
def pySpaceCodes : List Nat :=
  [9, 10, 11, 12, 13, 28, 29, 30, 31, 32, 133, 160, 5760,
   8192, 8193, 8194, 8195, 8196, 8197, 8198, 8199, 8200, 8201, 8202,
   8232, 8233, 8239, 8287, 12288]

/-- `whitespace = lambda c: re.match('\s', c, re.UNICODE) is not None` (src/sgf.py:206). -/
def isPySpace (c : Char) : Bool := decide (c.toNat ∈ pySpaceCodes)

/-- Code points at which Python's `str.splitlines` sees a line boundary. -/
def linebreakCodes : List Nat := [10, 11, 12, 13, 28, 29, 30, 133, 8232, 8233]

/-- `linebreak = lambda c: len(c.splitlines()[0]) == 0` (src/sgf.py:205):
true exactly when the single character `c` is a line boundary. -/
def isLinebreak (c : Char) : Bool := decide (c.toNat ∈ linebreakCodes)

/-- Byte values (latin-1 image) of the Python whitespace code points that fit in a byte. -/
def spaceByteCodes : List Nat := [9, 10, 11, 12, 13, 28, 29, 30, 31, 32, 133, 160]

def isPySpaceByte (b : Nat) : Bool := decide (b ∈ spaceByteCodes)

/-- Byte values (latin-1 image) of the line-boundary code points that fit in a byte. -/
def linebreakByteCodes : List Nat := [10, 11, 12, 13, 28, 29, 30, 133]

def isLinebreakByte (b : Nat) : Bool := decide (b ∈ linebreakByteCodes)

/-- `need_escape = ":]"[not compose:]` (src/sgf.py:204, 271): the characters that
must be escaped in the current mode. -/
def need_escape (compose : Bool) : List Char := if compose then [':', ']'] else [']']

/-- `text.encode(encoding)` for the default `"ISO-8859-1"` codec: each character of
code point <= 255 becomes the byte of the same value; others raise. -/
def latin1Encode : List Char → Except PyErr (List Nat)
  | [] => .ok []
  | c :: rest =>
      if c.toNat ≤ 255 then (latin1Encode rest).map (fun bs => c.toNat :: bs)
      else .error .unencodable

/-- The character loop of `Text.encode` (src/sgf.py:209-225).  The `Bool`
argument is the `escape` flag; the branches are the `if`/`elif` chain in
source order. -/
def textLoop (compose : Bool) : Bool → List Char → Except PyErr (List Char)
  | escape, [] => if escape then .error .dangling else .ok []
  | escape, c :: rest =>
      if !escape && c == '\\' then textLoop compose true rest
      else if !escape && decide (c ∈ need_escape compose) then .error (.unescaped c)
      else if escape && isLinebreak c then textLoop compose false rest
      else if isPySpace c && !isLinebreak c then
        (textLoop compose false rest).map (fun t => ' ' :: t)
      else (textLoop compose false rest).map (fun t => c :: t)

/-- `Text.encode` (src/sgf.py:200-227) with the default encoding. -/
def Text.encode (s : List Char) (compose : Bool) : Except PyErr (List Nat) :=
  (textLoop compose false s).bind latin1Encode

/-- The character loop of `SimpleText.encode` (src/sgf.py:275-288): same chain
as `Text.encode` but with no whitespace-to-space branch. -/
def simpleLoop (compose : Bool) : Bool → List Char → Except PyErr (List Char)
  | escape, [] => if escape then .error .dangling else .ok []
  | escape, c :: rest =>
      if !escape && c == '\\' then simpleLoop compose true rest
      else if !escape && decide (c ∈ need_escape compose) then .error (.unescaped c)
      else if escape && isLinebreak c then simpleLoop compose false rest
      else (simpleLoop compose false rest).map (fun t => c :: t)

/-- `re.sub('\s', ' ', text, flags=re.UNICODE)` (src/sgf.py:291): every
whitespace character is replaced, one for one, by a single space. -/
def subWhitespace (t : List Char) : List Char :=
  t.map (fun c => if isPySpace c then ' ' else c)

/-- `SimpleText.encode` (src/sgf.py:267-293) with the default encoding. -/
def SimpleText.encode (s : List Char) (compose : Bool) : Except PyErr (List Nat) :=
  ((simpleLoop compose false s).map subWhitespace).bind latin1Encode

/-- `str.lstrip()` / `str.strip()` on both ends (used by `int()`). -/
def stripPy (s : List Char) : List Char :=
  ((s.dropWhile isPySpace).reverse.dropWhile isPySpace).reverse

/-- The value of an ASCII decimal digit character, if `c` is one. -/
def charDigit (c : Char) : Option Nat :=
  if 48 ≤ c.toNat && c.toNat ≤ 57 then some (c.toNat - 48) else none

/-- Digit run of Python `int()` after the first digit: an underscore is legal
only between two digits (PEP 515). -/
def digitsUAux : Nat → List Char → Option Nat
  | acc, [] => some acc
  | acc, c :: rest =>
      if c == '_' then
        match rest with
        | c2 :: rest2 =>
            match charDigit c2 with
            | some d => digitsUAux (acc * 10 + d) rest2
            | none => none
        | [] => none
      else
        match charDigit c with
        | some d => digitsUAux (acc * 10 + d) rest
        | none => none

/-- A nonempty digit run (with PEP 515 underscores) and its value. -/
def parseDigits : List Char → Option Nat
  | [] => none
  | c :: rest =>
      match charDigit c with
      | some d => digitsUAux d rest
      | none => none

/-- Python `int(s)` on a string: strip whitespace, optional sign, digit run.
(The model covers ASCII digits; no use in this repository feeds non-ASCII
digits to `int`.) -/
def pyIntStr (s : List Char) : Option Int :=
  match stripPy s with
  | [] => none
  | c :: rest =>
      if c == '+' then (parseDigits rest).map (fun m => (m : Int))
      else if c == '-' then (parseDigits rest).map (fun m => -(m : Int))
      else (parseDigits (c :: rest)).map (fun m => (m : Int))

/-- The `Number` value object (src/sgf.py:150-162). -/
structure Number where
  value : Int
deriving DecidableEq, Repr

/-- The three argument shapes `Number.__init__` distinguishes with `isinstance`. -/
inductive NumArg where
  | ofNum (m : Number)
  | ofStr (s : List Char)
  | ofInt (n : Int)

/-- `Number.__init__` (src/sgf.py:153-159): copy another Number, parse a string
with `int()` (raising `ValueError` on failure), or store an integer. -/
def Number.init : NumArg → Except PyErr Number
  | .ofNum m => .ok ⟨m.value⟩
  | .ofStr s =>
      match pyIntStr s with
      | some v => .ok ⟨v⟩
      | none => .error .valueError
  | .ofInt n => .ok ⟨n⟩

/-- The character for the decimal digit `d`. -/
def digitChar (d : Nat) : Char := Char.ofNat (48 + d)

/-- Python `str(n)` for a natural number: canonical decimal digits. -/
def pyStrNat (n : Nat) : List Char :=
  if n = 0 then ['0'] else ((Nat.digits 10 n).map digitChar).reverse

/-- Python `str(n)` for an integer (src/sgf.py:161-162 renders `str(self.value)`). -/
def pyStr (n : Int) : List Char :=
  if n < 0 then '-' :: pyStrNat n.natAbs else pyStrNat n.natAbs

/-- `Number.__str__` (src/sgf.py:161-162). -/
def Number.toText (m : Number) : List Char := pyStr m.value

def isDigitChar (c : Char) : Bool := 48 ≤ c.toNat && c.toNat ≤ 57

/-- Full match of `Number.regex = r"[+-]?\d+"` (src/sgf.py:151) against a whole string. -/
def matchesNumberRegex (s : List Char) : Bool :=
  match s with
  | [] => false
  | c :: rest =>
      if c == '+' || c == '-' then !rest.isEmpty && rest.all isDigitChar
      else (c :: rest).all isDigitChar

/-- The `isinstance(o, SimpleText)` branch of `SimpleText.__init__`
(src/sgf.py:252-254): `self._data = o._data`.  The already-encoded bytes are
copied and the `compose` argument is never consulted in this branch. -/
def SimpleText.initOfExisting (data : List Nat) (compose : Bool) : List Nat := data

/-- The argument shapes `SimpleText.__init__` distinguishes with `isinstance`. -/
inductive STArg where
  | ofST (data : List Nat)
  | ofStr (s : List Char)

/-- `SimpleText.__init__` (src/sgf.py:251-258) with the default encoding. -/
def SimpleText.init (o : STArg) (compose : Bool) : Except PyErr (List Nat) :=
  match o with
  | .ofST data => .ok (SimpleText.initOfExisting data compose)
  | .ofStr s => SimpleText.encode s compose

/-- Python values that flow through `Compose`, `SZ` and `AP`: plain ints,
plain strings, `Number` objects, `SimpleText` objects (carried as their
stored bytes) and `Compose` objects (carried as their two members). -/
inductive Value where
  | int (n : Int)
  | str (s : List Char)
  | simpleText (data : List Nat)
  | num (m : Number)
  | compose (a b : Value)
deriving DecidableEq, Repr

/-- Python `==` as used by `SZ.__init__` on `o.values[0] == o.values[1]`:
value equality for `int` and `str`; `Number`, `SimpleText` and `Compose`
define no `__eq__`, so comparison falls back to object identity, and the two
slots of a freshly built `Compose` hold distinct objects in every
construction path modelled here. -/
def valueEq : Value → Value → Bool
  | .int a, .int b => a == b
  | .str a, .str b => a == b
  | _, _ => false

/-- The per-member conversion in `Compose.__init__` (src/sgf.py:136-142):
a `SimpleText` member is passed through `SimpleText(member, compose=True)`,
which copies its bytes (see `SimpleText.initOfExisting`); other members are
left untouched. -/
def composeFix (v : Value) : Value :=
  match v with
  | .simpleText data => .simpleText (SimpleText.initOfExisting data true)
  | v => v

/-- The argument shapes `Compose.__init__` distinguishes. -/
inductive ComposeArg where
  | ofCompose (a b : Value)
  | ofSeq (l : List Value)

/-- `Compose.__init__` (src/sgf.py:128-142): reuse an existing pair or take a
two-element sequence, then run the `SimpleText` conversion on both slots. -/
def Compose.init : ComposeArg → Except PyErr (Value × Value)
  | .ofCompose a b => .ok (composeFix a, composeFix b)
  | .ofSeq l =>
      match l with
      | [a, b] => .ok (composeFix a, composeFix b)
      | _ => .error .valueError

/-- The `GM` property (src/sgf.py:59-75); `values` holds the raw integers. -/
structure GMProp where
  values : List Int
deriving DecidableEq, Repr

/-- `GM._validate_number` (src/sgf.py:67-70). -/
def GM.validate_number (n : Int) : Except PyErr Unit :=
  if 1 ≤ n ∧ n ≤ 40 then .ok () else .error .valueError

/-- `GM.__init__` (src/sgf.py:62-65). -/
def GM.init (n : Int) : Except PyErr GMProp :=
  (GM.validate_number n).map (fun _ => ⟨[n]⟩)

/-- `Property.serialize` (src/sgf.py:12-16) specialised to `GM`: the
identifier followed by each value in brackets, via `"[{}]".format(v)`
which renders `str(v)`. -/
def GMProp.serialize (p : GMProp) : List Char :=
  p.values.foldl (fun s v => s ++ ('[' :: (pyStr v ++ [']']))) ['G', 'M']

/-- The `SZ` property (src/sgf.py:115-125). -/
structure SZProp where
  values : List Value
deriving DecidableEq, Repr

/-- The argument shapes `SZ.__init__` distinguishes with `isinstance`. -/
inductive SZArg where
  | ofCompose (a b : Value)
  | ofInt (n : Int)
  | ofStr (s : List Char)

/-- `SZ.__init__` (src/sgf.py:118-125): reject a `Compose` whose two members
compare equal, keep an unequal `Compose`, wrap anything else in `Number`. -/
def SZ.init : SZArg → Except PyErr SZProp
  | .ofCompose a b =>
      if valueEq a b then .error .valueError
      else .ok ⟨[Value.compose a b]⟩
  | .ofInt n => (Number.init (.ofInt n)).map (fun m => ⟨[Value.num m]⟩)
  | .ofStr s => (Number.init (.ofStr s)).map (fun m => ⟨[Value.num m]⟩)

/-- The `AP` property (src/sgf.py:40-45). -/
structure APProp where
  values : List Value
deriving DecidableEq, Repr

/-- `AP.__init__` (src/sgf.py:43-45): wrap the raw pair in a `Compose`. -/
def AP.init (name version : List Char) : Except PyErr APProp :=
  (Compose.init (.ofSeq [Value.str name, Value.str version])).map
    (fun p => ⟨[Value.compose p.1 p.2]⟩)

/-- `str.lstrip()` as used by `Property.deserialize`. -/
def lstripPy (s : List Char) : List Char := s.dropWhile isPySpace

/-- The `[+-]?\d+` alternative of the bracketed-value pattern, matched at the
start of `s` and required (by backtracking through the closing `\]`) to be
followed immediately by `]`; returns the group text. -/
def matchNumberAlt (s : List Char) : Option (List Char) :=
  match s with
  | [] => none
  | c :: rest =>
      if c == '+' || c == '-' then
        let ds := rest.takeWhile isDigitChar
        if !ds.isEmpty && (rest.drop ds.length).head? == some ']' then some (c :: ds)
        else none
      else
        let ds := (c :: rest).takeWhile isDigitChar
        if !ds.isEmpty && ((c :: rest).drop ds.length).head? == some ']' then some ds
        else none

/-- The `[^\]]*` alternative (`SimpleText.regex`, src/sgf.py:249): the run of
non-`]` characters at the start of `s`, which must be followed by `]`. -/
def matchTextAlt (s : List Char) : Option (List Char) :=
  let g := s.takeWhile (fun c => !(c == ']'))
  if (s.drop g.length).head? == some ']' then some g else none

/-- `re.match('\[({}|{})\]'.format(Number.regex, SimpleText.regex), data)`
(src/sgf.py:30-31): a leading `[`, then the leftmost alternative that lets
the closing `]` match; the single group always participates, so the
`m.lastindex != 1` test never fires on a successful match. -/
def matchPropValue (s : List Char) : Option (List Char) :=
  match s with
  | '[' :: rest =>
      match matchNumberAlt rest with
      | some g => some g
      | none => matchTextAlt rest
  | _ => none

/-- `Property.deserialize` (src/sgf.py:18-35): strip leading whitespace,
require the identifier, strip again, extract the first bracketed value. -/
def Property.deserializeTemplate (ident data : List Char) : Except PyErr (List Char) :=
  let d1 := lstripPy data
  if d1.take ident.length == ident then
    match matchPropValue (lstripPy (d1.drop ident.length)) with
    | some g => .ok g
    | none => .error .valueError
  else .error .valueError

/-- The `CA` property (src/sgf.py:47-57); each value is a `SimpleText`'s bytes. -/
structure CAProp where
  values : List (List Nat)
deriving DecidableEq, Repr

/-- `CA.__init__` (src/sgf.py:50-52). -/
def CA.init (charset : List Char) : Except PyErr CAProp :=
  (SimpleText.encode charset false).map (fun d => ⟨[d]⟩)

/-- `CA.deserialize` (src/sgf.py:54-57). -/
def CA.deserialize (data : List Char) : Except PyErr CAProp :=
  (Property.deserializeTemplate ['C', 'A'] data).bind CA.init

/-- `target` occurs unescaped in the tail, where the `Bool` says whether the
first character is consumed by a pending backslash: mirrors the escape-flag
transitions of the encoder loops. -/
def hasUnescapedFrom (target : Char) : Bool → List Char → Bool
  | _, [] => false
  | true, _ :: rest => hasUnescapedFrom target false rest
  | false, c :: rest =>
      if c == '\\' then hasUnescapedFrom target true rest
      else c == target || hasUnescapedFrom target false rest

/-- `target` occurs in `s` at a position not consumed by a backslash escape. -/
def hasUnescapedChar (target : Char) (s : List Char) : Bool :=
  hasUnescapedFrom target false s

/-- The escape flag left after the loop processes `s` from the given state. -/
def danglingState : Bool → List Char → Bool
  | esc, [] => esc
  | esc, c :: rest => danglingState (!esc && c == '\\') rest

/-- `s` ends in a dangling (unmatched) backslash escape. -/
def danglingEscape (s : List Char) : Bool := danglingState false s

/-- Byte-level analogue of `hasUnescapedFrom`, with `\\` as byte 92. -/
def hasUnescapedByteFrom (target : Nat) : Bool → List Nat → Bool
  | _, [] => false
  | true, _ :: rest => hasUnescapedByteFrom target false rest
  | false, b :: rest =>
      if b == 92 then hasUnescapedByteFrom target true rest
      else b == target || hasUnescapedByteFrom target false rest

/-- `target` occurs in the byte string at a position not escaped by byte 92. -/
def hasUnescapedByte (target : Nat) (bs : List Nat) : Bool :=
  hasUnescapedByteFrom target false bs

/-- Whether an `Except` is a success. -/
def exOk {α : Type} : Except PyErr α → Bool
  | .ok _ => true
  | .error _ => false

theorem char_toNat_inj {a b : Char} (h : a.toNat = b.toNat) : a = b :=
  Char.ext_iff.mpr (UInt32.ext h)

theorem exOk_map {α β : Type} (f : α → β) (x : Except PyErr α) :
    exOk (x.map f) = exOk x := by
  cases x <;> rfl

theorem exOk_bind_false {α β : Type} {x : Except PyErr α} (f : α → Except PyErr β)
    (h : exOk x = false) : exOk (x.bind f) = false := by
  cases x with
  | ok u => simp [exOk] at h
  | error e => rfl

theorem except_map_ok {α β : Type} {f : α → β} {x : Except PyErr α} {t : β}
    (h : x.map f = .ok t) : ∃ u, x = .ok u ∧ t = f u := by
  cases x with
  | ok u =>
      refine ⟨u, rfl, ?_⟩
      simpa [Except.map] using h.symm
  | error e => simp [Except.map] at h

theorem except_bind_ok {α β : Type} {x : Except PyErr α} {f : α → Except PyErr β} {t : β}
    (h : x.bind f = .ok t) : ∃ u, x = .ok u ∧ f u = .ok t := by
  cases x with
  | ok u => exact ⟨u, rfl, h⟩
  | error e => simp [Except.bind] at h

theorem latin1_mem {t : List Char} {bs : List Nat} (h : latin1Encode t = .ok bs)
    {b : Nat} (hb : b ∈ bs) : ∃ c ∈ t, b = c.toNat := by
  induction t generalizing bs with
  | nil =>
      unfold latin1Encode at h
      cases h
      simp at hb
  | cons c rest ih =>
      unfold latin1Encode at h
      by_cases hc : c.toNat ≤ 255
      · rw [if_pos hc] at h
        obtain ⟨u, hu, hbs⟩ := except_map_ok h
        subst hbs
        rcases List.mem_cons.mp hb with h1 | h2
        · exact ⟨c, List.mem_cons_self .., h1⟩
        · obtain ⟨c', hc', hb'⟩ := ih hu h2
          exact ⟨c', List.mem_cons_of_mem _ hc', hb'⟩
      · rw [if_neg hc] at h
        cases h

theorem dropWhile_eq_self_of_all {p : Char → Bool} {l : List Char}
    (h : ∀ c ∈ l, p c = false) : l.dropWhile p = l := by
  cases l with
  | nil => rfl
  | cons c rest =>
      rw [List.dropWhile_cons]
      simp [h c (List.mem_cons_self ..)]

theorem stripPy_eq_self {l : List Char} (h : ∀ c ∈ l, isPySpace c = false) :
    stripPy l = l := by
  unfold stripPy
  rw [dropWhile_eq_self_of_all h,
    dropWhile_eq_self_of_all (fun c hc => h c (List.mem_reverse.mp hc)),
    List.reverse_reverse]

/-- Claim C1: the code's comment (src/sgf.py:136-137) and the spec say a
`SimpleText` member of a `Compose` is re-derived with `compose_mode = true`,
so that a bare `:` fails; in fact `SimpleText.__init__` on an existing
`SimpleText` copies the encoded bytes and ignores `compose`, so building
`SimpleText("a:b")` (which stores a bare `:` as byte 58) and putting it into
a `Compose` succeeds, even though re-encoding the raw text with
`compose = true` would raise the unescaped-`:` error. -/
theorem c1_compose_skips_reencode :
    SimpleText.init (.ofStr ['a', ':', 'b']) false = .ok [97, 58, 98] ∧
    SimpleText.encode ['a', ':', 'b'] true = .error (.unescaped ':') ∧
    Compose.init (.ofSeq [Value.simpleText [97, 58, 98], Value.simpleText [99]]) =
      .ok (Value.simpleText [97, 58, 98], Value.simpleText [99]) :=
  ⟨rfl, rfl, rfl⟩

/-- Claim C2, counterexample: the raw input `\]` is accepted by the
non-compose `Text` encoder, and its stored form is the single byte `]`
(93), an unescaped occurrence of `]` — the claimed invariant fails exactly
on backslash-escaped input. -/
theorem c2_counterexample :
    Text.encode ['\\', ']'] false = .ok [93] ∧ hasUnescapedByte 93 [93] = true :=
  ⟨rfl, rfl⟩

/-- Claim C3, counterexample: the run of two tabs in `a<tab><tab>b` is
stored as two spaces (bytes 32, 32), not collapsed to a single space as
the claim states. -/
theorem c3_counterexample :
    SimpleText.encode ['a', '\t', '\t', 'b'] false = .ok [97, 32, 32, 98] ∧
    ([97, 32, 32, 98] : List Nat) ≠ [97, 32, 98] :=
  ⟨rfl, by decide⟩

/-- Claim C4, counterexample: the text `" 42"` does not match `[+-]?\d+`,
yet `Number` construction succeeds because Python's `int()` strips
surrounding whitespace. -/
theorem c4_counterexample :
    matchesNumberRegex [' ', '4', '2'] = false ∧
    Number.init (.ofStr [' ', '4', '2']) = .ok ⟨42⟩ :=
  ⟨rfl, rfl⟩

/-- Claim C9: encoding `a\<LF>b` in `Text` (formatted) mode yields exactly
`ab` (the escaped line break is removed with no space inserted), while the
unescaped line break in `a<LF>b` is preserved verbatim. -/
theorem c9_soft_break_formatted :
    Text.encode ['a', '\\', '\n', 'b'] false = .ok [97, 98] ∧
    Text.encode ['a', '\n', 'b'] false = .ok [97, 10, 98] :=
  ⟨rfl, rfl⟩

/-- Claim C10: the deserialization template accepts an empty bracketed
value: on `CA[]` the value grammar's text alternative matches the empty
string, and `CA.deserialize` yields a property whose single value is the
empty text. -/
theorem c10_empty_bracketed_value :
    Property.deserializeTemplate ['C', 'A'] ['C', 'A', '[', ']'] = .ok [] ∧
    CA.deserialize ['C', 'A', '[', ']'] = .ok ⟨[[]]⟩ :=
  ⟨rfl, rfl⟩

/-- Claim C6: constructing `GM` fails with a `ValueError` for every integer
outside `[1, 40]`; inside the range it succeeds, and `serialize()` yields
exactly `GM[<n>]`. -/
theorem c6_gm_range_and_serialize (n : Int) :
    (¬(1 ≤ n ∧ n ≤ 40) → GM.init n = .error .valueError) ∧
    ((1 ≤ n ∧ n ≤ 40) → GM.init n = .ok ⟨[n]⟩ ∧
      GMProp.serialize ⟨[n]⟩ = ['G', 'M', '['] ++ pyStr n ++ [']']) := by
  constructor
  · intro h
    simp [GM.init, GM.validate_number, h, Except.map]
  · intro h
    refine ⟨by simp [GM.init, GM.validate_number, h, Except.map], ?_⟩
    simp [GMProp.serialize]

theorem c6_witness :
    GM.init 0 = .error .valueError ∧ GM.init 41 = .error .valueError ∧
    GM.init 7 = .ok ⟨[7]⟩ :=
  ⟨(c6_gm_range_and_serialize 0).1 (by decide),
   (c6_gm_range_and_serialize 41).1 (by decide),
   ((c6_gm_range_and_serialize 7).2 (by decide)).1⟩

/-- Claim C7: building a `Compose` from the raw pair `(a, b)` of integers
keeps the pair; `SZ` rejects that composed value exactly when the members
are equal, while the generic composed property `AP` accepts a pair with
equal members. -/
theorem c7_sz_equal_pair (a b : Int) (s : List Char) :
    Compose.init (.ofSeq [Value.int a, Value.int b]) = .ok (Value.int a, Value.int b) ∧
    (a = b → SZ.init (.ofCompose (Value.int a) (Value.int b)) = .error .valueError) ∧
    (a ≠ b → SZ.init (.ofCompose (Value.int a) (Value.int b)) =
      .ok ⟨[Value.compose (Value.int a) (Value.int b)]⟩) ∧
    AP.init s s = .ok ⟨[Value.compose (Value.str s) (Value.str s)]⟩ := by
  refine ⟨rfl, ?_, ?_, rfl⟩
  · intro h
    subst h
    simp [SZ.init, valueEq]
  · intro h
    simp [SZ.init, valueEq, h]

theorem c7_witness :
    SZ.init (.ofCompose (Value.int 19) (Value.int 19)) = .error .valueError ∧
    SZ.init (.ofCompose (Value.int 19) (Value.int 18)) =
      .ok ⟨[Value.compose (Value.int 19) (Value.int 18)]⟩ ∧
    AP.init ['f', 'o', 'o'] ['f', 'o', 'o'] =
      .ok ⟨[Value.compose (Value.str ['f', 'o', 'o']) (Value.str ['f', 'o', 'o'])]⟩ :=
  ⟨(c7_sz_equal_pair 19 19 []).2.1 rfl,
   (c7_sz_equal_pair 19 18 []).2.2.1 (by decide),
   (c7_sz_equal_pair 0 0 ['f', 'o', 'o']).2.2.2⟩

theorem charDigit_digitChar {d : Nat} (h : d < 10) : charDigit (digitChar d) = some d := by
  interval_cases d <;> rfl

theorem digitChar_ne_underscore {d : Nat} (h : d < 10) : (digitChar d == '_') = false := by
  interval_cases d <;> rfl

theorem digitChar_ne_plus {d : Nat} (h : d < 10) : (digitChar d == '+') = false := by
  interval_cases d <;> rfl

theorem digitChar_ne_minus {d : Nat} (h : d < 10) : (digitChar d == '-') = false := by
  interval_cases d <;> rfl

theorem isPySpace_digitChar {d : Nat} (h : d < 10) : isPySpace (digitChar d) = false := by
  interval_cases d <;> rfl

theorem digitsUAux_map (L : List Nat) : ∀ acc : Nat, (∀ d ∈ L, d < 10) →
    digitsUAux acc (L.map digitChar) = some (L.foldl (fun a d => a * 10 + d) acc) := by
  induction L with
  | nil => intro acc _; rfl
  | cons d T ih =>
      intro acc hall
      have hd : d < 10 := hall d (List.mem_cons_self ..)
      rw [List.map_cons]
      unfold digitsUAux
      simp only [digitChar_ne_underscore hd, Bool.false_eq_true, if_false,
        charDigit_digitChar hd, List.foldl_cons]
      exact ih (acc * 10 + d) (fun x hx => hall x (List.mem_cons_of_mem _ hx))

theorem parseDigits_map {L : List Nat} (hne : L ≠ []) (hall : ∀ d ∈ L, d < 10) :
    parseDigits (L.map digitChar) = some (L.foldl (fun a d => a * 10 + d) 0) := by
  cases L with
  | nil => exact absurd rfl hne
  | cons d T =>
      have hd : d < 10 := hall d (List.mem_cons_self ..)
      rw [List.map_cons]
      unfold parseDigits
      simp only [charDigit_digitChar hd, List.foldl_cons, Nat.zero_mul, Nat.zero_add]
      exact digitsUAux_map T d (fun x hx => hall x (List.mem_cons_of_mem _ hx))

theorem foldl_reverse_ofDigits (L : List Nat) : ∀ acc : Nat,
    (L.reverse).foldl (fun a d => a * 10 + d) acc =
      acc * 10 ^ L.length + Nat.ofDigits 10 L := by
  induction L with
  | nil => intro acc; simp [Nat.ofDigits_nil]
  | cons d T ih =>
      intro acc
      rw [List.reverse_cons, List.foldl_append, ih acc]
      simp only [List.foldl_cons, List.foldl_nil, Nat.ofDigits_cons, List.length_cons,
        pow_succ]
      ring

theorem parseDigits_pyStrNat (n : Nat) : parseDigits (pyStrNat n) = some n := by
  by_cases h : n = 0
  · subst h; rfl
  · unfold pyStrNat
    rw [if_neg h, ← List.map_reverse]
    have hne : (Nat.digits 10 n).reverse ≠ [] := by
      simpa [List.reverse_eq_nil_iff] using Nat.digits_ne_nil_iff_ne_zero.mpr h
    have hall : ∀ d ∈ (Nat.digits 10 n).reverse, d < 10 := fun d hd =>
      Nat.digits_lt_base (by norm_num) (List.mem_reverse.mp hd)
    rw [parseDigits_map hne hall, foldl_reverse_ofDigits]
    simp [Nat.ofDigits_digits]

theorem pyStrNat_no_space {m : Nat} : ∀ c ∈ pyStrNat m, isPySpace c = false := by
  intro c hc
  by_cases h : m = 0
  · subst h
    rw [show pyStrNat 0 = ['0'] from rfl, List.mem_singleton] at hc
    subst hc; rfl
  · unfold pyStrNat at hc
    rw [if_neg h, List.mem_reverse] at hc
    obtain ⟨d, hd, rfl⟩ := List.mem_map.mp hc
    exact isPySpace_digitChar (Nat.digits_lt_base (by norm_num) hd)

theorem pyStr_no_space {n : Int} : ∀ c ∈ pyStr n, isPySpace c = false := by
  intro c hc
  unfold pyStr at hc
  by_cases h : n < 0
  · rw [if_pos h] at hc
    rcases List.mem_cons.mp hc with rfl | hc'
    · rfl
    · exact pyStrNat_no_space c hc'
  · rw [if_neg h] at hc
    exact pyStrNat_no_space c hc

theorem pyStrNat_shape (m : Nat) : ∃ d t, d < 10 ∧ pyStrNat m = digitChar d :: t := by
  by_cases h : m = 0
  · subst h
    exact ⟨0, [], by norm_num, by decide⟩
  · have hd : (Nat.digits 10 m).reverse ≠ [] := by
      simpa [List.reverse_eq_nil_iff] using Nat.digits_ne_nil_iff_ne_zero.mpr h
    cases hrev : (Nat.digits 10 m).reverse with
    | nil => exact absurd hrev hd
    | cons d ds =>
        have hmem : d ∈ Nat.digits 10 m := by
          refine List.mem_reverse.mp ?_
          rw [hrev]
          exact List.mem_cons_self ..
        refine ⟨d, ds.map digitChar, Nat.digits_lt_base (by norm_num) hmem, ?_⟩
        unfold pyStrNat
        rw [if_neg h, ← List.map_reverse, hrev, List.map_cons]

/-- Claim C5: construct a `Number` from an integer, render it to text with
`str`, parse that text back: the resulting value is the original integer. -/
theorem c5_number_roundtrip (n : Int) :
    Number.init (.ofInt n) = .ok ⟨n⟩ ∧
    Number.init (.ofStr (Number.toText ⟨n⟩)) = .ok ⟨n⟩ := by
  refine ⟨rfl, ?_⟩
  have hmain : pyIntStr (pyStr n) = some n := by
    unfold pyIntStr
    rw [stripPy_eq_self pyStr_no_space]
    by_cases hneg : n < 0
    · rw [pyStr, if_pos hneg]
      simp only [show (('-' : Char) == '+') = false from rfl,
        show (('-' : Char) == '-') = true from rfl, Bool.false_eq_true, if_false, if_true,
        parseDigits_pyStrNat, Option.map_some']
      simp only [Option.bind_eq_bind, Option.some_bind, Option.pure_def, Option.map_some',
        Option.some.injEq]
      omega
    · obtain ⟨d, t, hd, hshape⟩ := pyStrNat_shape n.natAbs
      rw [pyStr, if_neg hneg, hshape]
      simp only [digitChar_ne_plus hd, digitChar_ne_minus hd, Bool.false_eq_true, if_false,
        ← hshape, parseDigits_pyStrNat, Option.map_some']
      simp only [Option.bind_eq_bind, Option.some_bind, Option.pure_def, Option.map_some',
        Option.some.injEq]
      omega
  have hdef : Number.init (.ofStr (pyStr n)) =
      (match pyIntStr (pyStr n) with
       | some v => Except.ok ⟨v⟩
       | none => Except.error PyErr.valueError) := rfl
  show Number.init (.ofStr (pyStr n)) = .ok ⟨n⟩
  rw [hdef, hmain]

theorem isDigitChar_not_space {c : Char} (h : isDigitChar c = true) :
    isPySpace c = false := by
  unfold isDigitChar at h
  have h1 : 48 ≤ c.toNat ∧ c.toNat ≤ 57 := by simpa using h
  unfold isPySpace pySpaceCodes
  rw [decide_eq_false_iff_not]
  intro hm
  simp only [List.mem_cons, List.not_mem_nil, or_false] at hm
  omega

theorem isDigitChar_ne_underscore {c : Char} (h : isDigitChar c = true) :
    (c == '_') = false := by
  by_cases hc : c = '_'
  · subst hc
    simp [isDigitChar] at h
  · simp [hc]

theorem charDigit_of_digit {c : Char} (h : isDigitChar c = true) :
    charDigit c = some (c.toNat - 48) := by
  unfold isDigitChar at h
  unfold charDigit
  rw [h]
  rfl

theorem digitsUAux_all_digits (l : List Char) : ∀ acc : Nat,
    (∀ c ∈ l, isDigitChar c = true) → ∃ v, digitsUAux acc l = some v := by
  induction l with
  | nil => intro acc _; exact ⟨acc, rfl⟩
  | cons c rest ih =>
      intro acc hall
      have hc := hall c (List.mem_cons_self ..)
      unfold digitsUAux
      simp only [isDigitChar_ne_underscore hc, Bool.false_eq_true, if_false,
        charDigit_of_digit hc]
      exact ih _ (fun x hx => hall x (List.mem_cons_of_mem _ hx))

theorem parseDigits_all_digits {l : List Char} (hne : l ≠ [])
    (hall : ∀ c ∈ l, isDigitChar c = true) : ∃ v, parseDigits l = some v := by
  cases l with
  | nil => exact absurd rfl hne
  | cons c rest =>
      have hc := hall c (List.mem_cons_self ..)
      simp only [parseDigits, charDigit_of_digit hc]
      exact digitsUAux_all_digits rest _ (fun x hx => hall x (List.mem_cons_of_mem _ hx))

/-- Claim C4 (amended): constructing a `Number` from text succeeds for every
text matching `[+-]?digits`; it fails with a `ValueError` exactly on the
texts Python's `int()` rejects — a strictly smaller set than the non-matching
texts, since `int()` also accepts e.g. surrounding whitespace. -/
theorem c4_amended (s : List Char) :
    (matchesNumberRegex s = true → ∃ m, Number.init (.ofStr s) = .ok m) ∧
    (pyIntStr s = none → Number.init (.ofStr s) = .error .valueError) := by
  constructor
  · intro h
    suffices hv : ∃ v, pyIntStr s = some v by
      obtain ⟨v, hv⟩ := hv
      refine ⟨⟨v⟩, ?_⟩
      have hdef : Number.init (.ofStr s) =
          (match pyIntStr s with
           | some v => Except.ok ⟨v⟩
           | none => Except.error PyErr.valueError) := rfl
      rw [hdef, hv]
    cases s with
    | nil => simp [matchesNumberRegex] at h
    | cons c rest =>
        by_cases hsign : (c == '+' || c == '-') = true
        · have h' : (!rest.isEmpty && rest.all isDigitChar) = true := by
            simpa [matchesNumberRegex, hsign] using h
          have hne : rest ≠ [] := by
            intro hr
            subst hr
            simp at h'
          have hall : ∀ x ∈ rest, isDigitChar x = true := by
            intro x hx
            exact List.all_eq_true.mp ((Bool.and_eq_true ..).mp h').2 x hx
          have hspace : ∀ x ∈ c :: rest, isPySpace x = false := by
            intro x hx
            rcases List.mem_cons.mp hx with rfl | hx'
            · rcases Bool.or_eq_true_iff.mp hsign with h1 | h1
              · rw [show x = '+' from by simpa using h1]; rfl
              · rw [show x = '-' from by simpa using h1]; rfl
            · exact isDigitChar_not_space (hall x hx')
          obtain ⟨v, hv⟩ := parseDigits_all_digits hne hall
          rcases Bool.or_eq_true_iff.mp hsign with h1 | h1
          · have hc' : c = '+' := by simpa using h1
            subst hc'
            refine ⟨v, ?_⟩
            simp only [pyIntStr]
            rw [stripPy_eq_self hspace]
            simp [hv]
          · have hc' : c = '-' := by simpa using h1
            subst hc'
            refine ⟨-(v : Int), ?_⟩
            simp only [pyIntStr]
            rw [stripPy_eq_self hspace]
            simp [hv]
        · have hsign' : (c == '+' || c == '-') = false := by
            cases hb : (c == '+' || c == '-') with
            | false => rfl
            | true => exact absurd hb hsign
          have h' : (c :: rest).all isDigitChar = true := by
            simpa [matchesNumberRegex, hsign'] using h
          have hall : ∀ x ∈ c :: rest, isDigitChar x = true := List.all_eq_true.mp h'
          have hspace : ∀ x ∈ c :: rest, isPySpace x = false := fun x hx =>
            isDigitChar_not_space (hall x hx)
          have hplus : (c == '+') = false := by
            cases hp : (c == '+') with
            | false => rfl
            | true => exact absurd (by simp [hp]) hsign
          have hminus : (c == '-') = false := by
            cases hp : (c == '-') with
            | false => rfl
            | true => exact absurd (by simp [hp]) hsign
          obtain ⟨v, hv⟩ := parseDigits_all_digits (List.cons_ne_nil c rest) hall
          refine ⟨v, ?_⟩
          simp only [pyIntStr]
          rw [stripPy_eq_self hspace]
          simp [hplus, hminus, hv]
  · intro h
    have hdef : Number.init (.ofStr s) =
        (match pyIntStr s with
         | some v => Except.ok ⟨v⟩
         | none => Except.error PyErr.valueError) := rfl
    rw [hdef, h]

theorem c4_witness :
    (∃ m, Number.init (.ofStr ['4', '2']) = .ok m) ∧
    Number.init (.ofStr ['x']) = .error .valueError :=
  ⟨(c4_amended ['4', '2']).1 (by decide), (c4_amended ['x']).2 rfl⟩

theorem textLoop_no_escape_chars : ∀ (s : List Char) (t : List Char), '\\' ∉ s →
    textLoop false false s = .ok t → ']' ∉ t ∧ '\\' ∉ t := by
  intro s
  induction s with
  | nil =>
      intro t _ h
      have : t = [] := by simpa [textLoop] using h.symm
      subst this
      simp
  | cons c rest ih =>
      intro t hs h
      have hc : c ≠ '\\' := fun hc => hs (hc ▸ List.mem_cons_self ..)
      have hrest : '\\' ∉ rest := fun hm => hs (List.mem_cons_of_mem _ hm)
      have hb : (c == '\\') = false := by simp [hc]
      by_cases hcr : c = ']'
      · subst hcr
        simp [textLoop, hb, need_escape] at h
      · have hmem : decide (c ∈ need_escape false) = false := by
          simp [need_escape, hcr]
        by_cases hws : (isPySpace c && !isLinebreak c) = true
        · rw [show textLoop false false (c :: rest) =
              (textLoop false false rest).map (fun t => ' ' :: t) by
            simp [textLoop, hb, hmem, hws]] at h
          obtain ⟨u, hu, ht⟩ := except_map_ok h
          subst ht
          obtain ⟨ih1, ih2⟩ := ih u hrest hu
          constructor
          · simp [ih1]
          · simp [ih2]
        · rw [show textLoop false false (c :: rest) =
              (textLoop false false rest).map (fun t => c :: t) by
            simp [textLoop, hb, hmem, hws]] at h
          obtain ⟨u, hu, ht⟩ := except_map_ok h
          subst ht
          obtain ⟨ih1, ih2⟩ := ih u hrest hu
          constructor
          · intro hm
            rcases List.mem_cons.mp hm with h1 | h1
            · exact hcr h1.symm
            · exact ih1 h1
          · intro hm
            rcases List.mem_cons.mp hm with h1 | h1
            · exact hc h1.symm
            · exact ih2 h1

theorem hasUnescapedByteFrom_mem : ∀ (bs : List Nat) (st : Bool) (target : Nat),
    hasUnescapedByteFrom target st bs = true → target ∈ bs := by
  intro bs
  induction bs with
  | nil => intro st target h; simp [hasUnescapedByteFrom] at h
  | cons b rest ih =>
      intro st target h
      cases st with
      | true =>
          have h' : hasUnescapedByteFrom target false rest = true := by
            simpa [hasUnescapedByteFrom] using h
          exact List.mem_cons_of_mem _ (ih false target h')
      | false =>
          by_cases hb : (b == 92) = true
          · have h' : hasUnescapedByteFrom target true rest = true := by
              simpa [hasUnescapedByteFrom, hb] using h
            exact List.mem_cons_of_mem _ (ih true target h')
          · have hbf : (b == 92) = false := by
              cases hq : (b == 92); rfl; exact absurd hq hb
            have h' : (b == target || hasUnescapedByteFrom target false rest) = true := by
              simpa [hasUnescapedByteFrom, hbf] using h
            rcases Bool.or_eq_true_iff.mp h' with h1 | h1
            · rw [show b = target from by simpa using h1]
              exact List.mem_cons_self ..
            · exact List.mem_cons_of_mem _ (ih false target h1)

/-- Claim C2 (amended): for a raw input accepted in non-compose mode that
itself contains no backslash, the stored form contains no `]` (93) and no
`\` (92) at all, hence no unescaped one.  (When the input escapes these
characters, the encoder strips the escape and stores them bare, which is
exactly where the original claim fails.) -/
theorem c2_amended (s : List Char) (bs : List Nat) (h1 : '\\' ∉ s)
    (h2 : Text.encode s false = .ok bs) :
    92 ∉ bs ∧ 93 ∉ bs ∧
    hasUnescapedByte 92 bs = false ∧ hasUnescapedByte 93 bs = false := by
  obtain ⟨t, hloop, hlat⟩ := except_bind_ok h2
  obtain ⟨ht1, ht2⟩ := textLoop_no_escape_chars s t h1 hloop
  have h92 : 92 ∉ bs := by
    intro hm
    obtain ⟨c, hc, hcn⟩ := latin1_mem hlat hm
    have : c = '\\' := char_toNat_inj hcn.symm
    exact ht2 (this ▸ hc)
  have h93 : 93 ∉ bs := by
    intro hm
    obtain ⟨c, hc, hcn⟩ := latin1_mem hlat hm
    have : c = ']' := char_toNat_inj hcn.symm
    exact ht1 (this ▸ hc)
  refine ⟨h92, h93, ?_, ?_⟩
  · cases hq : hasUnescapedByte 92 bs with
    | false => rfl
    | true => exact absurd (hasUnescapedByteFrom_mem bs false 92 hq) h92
  · cases hq : hasUnescapedByte 93 bs with
    | false => rfl
    | true => exact absurd (hasUnescapedByteFrom_mem bs false 93 hq) h93

theorem c2_witness :
    92 ∉ ([97, 98] : List Nat) ∧ 93 ∉ ([97, 98] : List Nat) ∧
    hasUnescapedByte 92 [97, 98] = false ∧ hasUnescapedByte 93 [97, 98] = false :=
  c2_amended ['a', 'b'] [97, 98] (by decide) rfl

/-- Claim C3 (amended): the stored form of a `SimpleText` contains no
line-break byte, and every whitespace byte in it is exactly a single space
(32) — each whitespace character of the input is replaced one-for-one by a
space.  (Runs of whitespace are NOT collapsed to one space: see the
counterexample.) -/
theorem c3_amended (s : List Char) (compose : Bool) (bs : List Nat)
    (h : SimpleText.encode s compose = .ok bs) :
    (∀ b ∈ bs, isLinebreakByte b = false) ∧
    (∀ b ∈ bs, isPySpaceByte b = true → b = 32) := by
  obtain ⟨u, hmap, hlat⟩ := except_bind_ok h
  obtain ⟨t, _, hu⟩ := except_map_ok hmap
  subst hu
  have hkey : ∀ b ∈ bs, isPySpaceByte b = true → b = 32 := by
    intro b hb hspb
    obtain ⟨c, hc, hcn⟩ := latin1_mem hlat hb
    obtain ⟨c0, _, hc0⟩ := List.mem_map.mp hc
    have hmem : c.toNat ∈ spaceByteCodes := by
      have := of_decide_eq_true (hcn ▸ hspb)
      exact this
    have hsp : isPySpace c = true := by
      refine decide_eq_true ?_
      have hsub : ∀ x ∈ spaceByteCodes, x ∈ pySpaceCodes := by decide
      exact hsub _ hmem
    have hcspace : c = ' ' := by
      by_cases h0 : isPySpace c0 = true
      · rw [← hc0, if_pos h0]
      · rw [← hc0] at hsp
        rw [if_neg h0] at hsp
        exact absurd hsp h0
    rw [hcn, hcspace]
    rfl
  refine ⟨?_, hkey⟩
  intro b hb
  cases hq : isLinebreakByte b with
  | false => rfl
  | true =>
      have hmem : b ∈ linebreakByteCodes := of_decide_eq_true hq
      have hsp : isPySpaceByte b = true := by
        refine decide_eq_true ?_
        have hsub : ∀ x ∈ linebreakByteCodes, x ∈ spaceByteCodes := by decide
        exact hsub _ hmem
      have := hkey b hb hsp
      subst this
      exact absurd hmem (by decide)

theorem c3_witness :
    (∀ b ∈ ([97, 32, 98] : List Nat), isLinebreakByte b = false) ∧
    (∀ b ∈ ([97, 32, 98] : List Nat), isPySpaceByte b = true → b = 32) :=
  c3_amended ['a', '\t', 'b'] false [97, 32, 98] rfl

theorem textLoop_unescaped_err : ∀ (s : List Char) (esc : Bool) (compose : Bool),
    hasUnescapedFrom ']' esc s = true → exOk (textLoop compose esc s) = false := by
  intro s
  induction s with
  | nil =>
      intro esc compose h
      cases esc <;> simp [hasUnescapedFrom] at h
  | cons c rest ih =>
      intro esc compose h
      cases esc with
      | true =>
          have h' : hasUnescapedFrom ']' false rest = true := by
            simpa [hasUnescapedFrom] using h
          by_cases hlb : isLinebreak c = true
          · simp [textLoop, hlb, ih false compose h']
          · by_cases hws : isPySpace c = true <;>
              simp [textLoop, hlb, hws, exOk_map, ih false compose h']
      | false =>
          by_cases hbs : c = '\\'
          · subst hbs
            have h' : hasUnescapedFrom ']' true rest = true := by
              simpa [hasUnescapedFrom] using h
            simp [textLoop, ih true compose h']
          · have hb : (c == '\\') = false := by simp [hbs]
            have h' : (c == ']' || hasUnescapedFrom ']' false rest) = true := by
              simpa [hasUnescapedFrom, hb] using h
            by_cases hcr : c = ']'
            · subst hcr
              cases compose <;>
                simp [textLoop, exOk, need_escape,
                  show ((']' : Char) == '\\') = false from rfl]
            · have h'' : hasUnescapedFrom ']' false rest = true := by
                have hcf : (c == ']') = false := by simp [hcr]
                simpa [hcf] using h'
              by_cases hmem : decide (c ∈ need_escape compose) = true
              · simp [textLoop, hb, hmem, exOk]
              · by_cases hws : (isPySpace c && !isLinebreak c) = true
                · simp [textLoop, hb, hmem, hws, exOk_map, ih false compose h'']
                · simp [textLoop, hb, hmem, hws, exOk_map, ih false compose h'']

theorem simpleLoop_unescaped_err : ∀ (s : List Char) (esc : Bool) (compose : Bool),
    hasUnescapedFrom ']' esc s = true → exOk (simpleLoop compose esc s) = false := by
  intro s
  induction s with
  | nil =>
      intro esc compose h
      cases esc <;> simp [hasUnescapedFrom] at h
  | cons c rest ih =>
      intro esc compose h
      cases esc with
      | true =>
          have h' : hasUnescapedFrom ']' false rest = true := by
            simpa [hasUnescapedFrom] using h
          by_cases hlb : isLinebreak c = true
          · simp [simpleLoop, hlb, ih false compose h']
          · simp [simpleLoop, hlb, exOk_map, ih false compose h']
      | false =>
          by_cases hbs : c = '\\'
          · subst hbs
            have h' : hasUnescapedFrom ']' true rest = true := by
              simpa [hasUnescapedFrom] using h
            simp [simpleLoop, ih true compose h']
          · have hb : (c == '\\') = false := by simp [hbs]
            have h' : (c == ']' || hasUnescapedFrom ']' false rest) = true := by
              simpa [hasUnescapedFrom, hb] using h
            by_cases hcr : c = ']'
            · subst hcr
              cases compose <;>
                simp [simpleLoop, exOk, need_escape,
                  show ((']' : Char) == '\\') = false from rfl]
            · have h'' : hasUnescapedFrom ']' false rest = true := by
                have hcf : (c == ']') = false := by simp [hcr]
                simpa [hcf] using h'
              by_cases hmem : decide (c ∈ need_escape compose) = true
              · simp [simpleLoop, hb, hmem, exOk]
              · simp [simpleLoop, hb, hmem, exOk_map, ih false compose h'']

theorem textLoop_dangling_err : ∀ (s : List Char) (esc : Bool) (compose : Bool),
    danglingState esc s = true → exOk (textLoop compose esc s) = false := by
  intro s
  induction s with
  | nil =>
      intro esc compose h
      have he : esc = true := by simpa [danglingState] using h
      subst he
      simp [textLoop, exOk]
  | cons c rest ih =>
      intro esc compose h
      have h' : danglingState (!esc && c == '\\') rest = true := by
        simpa [danglingState] using h
      by_cases h1 : (!esc && c == '\\') = true
      · rw [h1] at h'
        simp [textLoop, h1, ih true compose h']
      · have h1f : (!esc && c == '\\') = false := by
          cases hq : (!esc && c == '\\'); rfl; exact absurd hq h1
        rw [h1f] at h'
        by_cases hmem : (!esc && decide (c ∈ need_escape compose)) = true
        · simp [textLoop, h1f, hmem, exOk]
        · by_cases hlb : (esc && isLinebreak c) = true
          · simp [textLoop, h1f, hmem, hlb, ih false compose h']
          · by_cases hws : (isPySpace c && !isLinebreak c) = true
            · simp [textLoop, h1f, hmem, hlb, hws, exOk_map, ih false compose h']
            · simp [textLoop, h1f, hmem, hlb, hws, exOk_map, ih false compose h']

theorem simpleLoop_dangling_err : ∀ (s : List Char) (esc : Bool) (compose : Bool),
    danglingState esc s = true → exOk (simpleLoop compose esc s) = false := by
  intro s
  induction s with
  | nil =>
      intro esc compose h
      have he : esc = true := by simpa [danglingState] using h
      subst he
      simp [simpleLoop, exOk]
  | cons c rest ih =>
      intro esc compose h
      have h' : danglingState (!esc && c == '\\') rest = true := by
        simpa [danglingState] using h
      by_cases h1 : (!esc && c == '\\') = true
      · rw [h1] at h'
        simp [simpleLoop, h1, ih true compose h']
      · have h1f : (!esc && c == '\\') = false := by
          cases hq : (!esc && c == '\\'); rfl; exact absurd hq h1
        rw [h1f] at h'
        by_cases hmem : (!esc && decide (c ∈ need_escape compose)) = true
        · simp [simpleLoop, h1f, hmem, exOk]
        · by_cases hlb : (esc && isLinebreak c) = true
          · simp [simpleLoop, h1f, hmem, hlb, ih false compose h']
          · simp [simpleLoop, h1f, hmem, hlb, exOk_map, ih false compose h']

/-- Claim C8: in either mode and for both encoders, an input containing an
unescaped `]` never encodes successfully, and an input ending in a dangling
backslash escape never encodes successfully (the dangling escape is never
silently dropped). -/
theorem c8_unescaped_and_dangling (s : List Char) (compose : Bool) :
    (hasUnescapedChar ']' s = true →
      exOk (Text.encode s compose) = false ∧
      exOk (SimpleText.encode s compose) = false) ∧
    (danglingEscape s = true →
      exOk (Text.encode s compose) = false ∧
      exOk (SimpleText.encode s compose) = false) := by
  constructor
  · intro h
    constructor
    · exact exOk_bind_false _ (textLoop_unescaped_err s false compose h)
    · show exOk (((simpleLoop compose false s).map subWhitespace).bind latin1Encode) = false
      refine exOk_bind_false _ ?_
      rw [exOk_map]
      exact simpleLoop_unescaped_err s false compose h
  · intro h
    constructor
    · exact exOk_bind_false _ (textLoop_dangling_err s false compose h)
    · show exOk (((simpleLoop compose false s).map subWhitespace).bind latin1Encode) = false
      refine exOk_bind_false _ ?_
      rw [exOk_map]
      exact simpleLoop_dangling_err s false compose h

theorem c8_witness :
    (exOk (Text.encode ['a', ']'] false) = false ∧
      exOk (SimpleText.encode ['a', ']'] false) = false) ∧
    (exOk (Text.encode ['a', '\\'] true) = false ∧
      exOk (SimpleText.encode ['a', '\\'] true) = false) :=
  ⟨(c8_unescaped_and_dangling ['a', ']'] false).1 rfl,
   (c8_unescaped_and_dangling ['a', '\\'] true).2 rfl⟩

end Sgf
